import Mathlib

/-!
Verification of the backup/restore subsystem of `building_energy_optimizer`
(`src/building_energy_optimizer/monitoring/backup.py`, class `BackupManager`).

The Python code is shallowly embedded as executable Lean definitions:

* Path names are represented by their dot-separated segments
  (`"full_backup_x.tar.gz"` becomes `["full_backup_x", "tar", "gz"]`), so that
  `pathlib.Path.stem` — which drops everything from the last dot on — is
  `List.dropLast`, and the glob pattern `*.tar.gz` is "the last two segments
  are `tar`, `gz`".
* The backup root directory is a `RootState`: the regular files directly under
  it, the sub-directories under it, and the set of remote (S3) copies.
* The live working directory state touched by restore (the live SQLite file
  `building_energy.db`, its timestamped pre-restore safety copies, the model
  files and the configuration files) is a `LiveState`.  File contents are
  opaque tokens (`Nat`).
* ISO-8601 timestamps (whose lexicographic order on the strings produced by
  `datetime.isoformat` agrees with chronological order, all being naive
  datetimes of the same textual shape) are modelled as `Int` seconds.
* Filesystem faults that the Python code can encounter (a `shutil.copy2` or
  `mkdir` raising, a tar member failing to read) are injection flags in the
  environment records; an escaping Python exception is `Except.error`.
-/

namespace BackupPy

/-- A path name as its dot-separated segments: `"a.tar.gz" = ["a", "tar", "gz"]`.
`Path.stem` is `dropLast`; `Path.with_suffix` / f-string concatenation append
segments. -/
abbrev FName := List String

/-- Status of one component inside a backup manifest
(the `'status'` key of the per-component dicts in `backup.py`). -/
inductive CompStatus where
  | success
  | skipped
  | failed
  deriving DecidableEq, Repr

/-- The manifest record (`backup_info` dict of `create_full_backup`, lines
79-87, also used for the incremental manifest of `create_incremental_backup`,
lines 448-454; for an incremental manifest the `total_size_bytes`,
`compression_enabled` and `verification_passed` keys are absent in Python,
which reads of `manifest.get('total_size_bytes', 0)` turn into `0`/`false`
defaults, so the embedding stores those defaults). -/
structure BInfo where
  backupId : FName
  backupType : String
  createdAt : Int
  sinceTimestamp : Option Int
  components : List (String × CompStatus)
  totalSizeBytes : Nat
  compressionEnabled : Bool
  verificationPassed : Bool
  errorMsg : Option String
  deriving DecidableEq, Repr

/-- Content of one (staging or extracted) backup directory
`<backupRoot>/<id>/`: the optional `backup_manifest.json`, the optional
`database/building_energy.db` copy, the `models/*.joblib` copies, the
`configuration/*` copies and the `logs/*` copies, plus the total recursive
size of the files below the directory (what
`sum(f.stat().st_size for f in path.rglob('*'))` computes). -/
structure DirTree where
  name : FName
  manifest : Option BInfo
  dbFile : Option Nat
  modelFiles : List (String × Nat)
  configFiles : List (String × Nat)
  logFiles : List (String × Nat)
  rglobSize : Nat
  deriving DecidableEq, Repr

/-- A regular file directly under the backup root.  For a `.tar.gz` produced
by `_compress_backup`, `tree` is the packed directory (whose `name` is the
archive's internal top-level entry, the `arcname` of line 347); `tree = none`
models a file that `tarfile.open` cannot read. -/
structure ArchiveFile where
  name : FName
  ctime : Int
  size : Nat
  tree : Option DirTree
  deriving DecidableEq, Repr

/-- The backup root (`self.backup_dir`) plus the remote (S3) copies.  The
remote list only records which keys exist remotely; no local operation in
`backup.py` ever deletes one. -/
structure RootState where
  files : List ArchiveFile
  dirs : List DirTree
  remote : List FName
  deriving DecidableEq, Repr

/-- The live working-directory state that restore operations mutate: the live
`building_energy.db`, the timestamped `building_energy_pre_restore_<ts>.db`
safety copies (keyed by `int(time.time())`), the live `*.joblib` model files,
the live configuration files, and the timestamped `.env.backup_<ts>` copies. -/
structure LiveState where
  liveDB : Option Nat
  safetyCopies : List (Int × Nat)
  models : List (String × Nat)
  configs : List (String × Nat)
  envBackups : List (Int × Nat)
  deriving DecidableEq, Repr

/-- Whether a file name matches the glob `*.tar.gz` of `list_backups`
(line 628): it ends in the two segments `tar`, `gz` preceded by at least one
(possibly empty) segment. -/
def isTarGz (n : FName) : Bool :=
  match n.reverse with
  | g :: t :: _ :: _ => decide (g = "gz") && decide (t = "tar")
  | _ => false

/-- Kind tag of a `list_backups` entry (its `'type'` key). -/
inductive BKind where
  | compressed
  | uncompressed
  deriving DecidableEq, Repr

/-- One entry of the list returned by `list_backups` (lines 629-655):
`backupId` is the reported `'backup_id'`, `path` the on-disk name the entry
points at, `sizeBytes` the reported size and `createdAt` the key the final
sort uses. -/
structure BEntry where
  backupId : FName
  kind : BKind
  path : FName
  sizeBytes : Nat
  createdAt : Int
  deriving DecidableEq, Repr

/-- Entry built for a compressed backup (lines 628-636): the reported id is
`backup_file.stem`, i.e. the name with only its *last* segment dropped. -/
def entryOfArchive (f : ArchiveFile) : BEntry :=
  { backupId := f.name.dropLast, kind := .compressed, path := f.name,
    sizeBytes := f.size, createdAt := f.ctime }

/-- Entry built for an uncompressed backup directory (lines 639-655): only
directories containing a readable `backup_manifest.json` are listed; the
reported size is the manifest's `total_size_bytes` (default 0). -/
def entryOfDir (d : DirTree) : Option BEntry :=
  d.manifest.map fun m =>
    { backupId := d.name, kind := .uncompressed, path := d.name,
      sizeBytes := m.totalSizeBytes, createdAt := m.createdAt }

/-- The entries of `list_backups` before the final sort: compressed archives
first (the `glob("*.tar.gz")` loop), then manifest-bearing directories (the
`iterdir()` loop). -/
def rawEntries (root : RootState) : List BEntry :=
  (root.files.filter fun f => isTarGz f.name).map entryOfArchive
    ++ root.dirs.filterMap entryOfDir

/-- Stable descending insertion of one entry: `e` is placed before the
first entry strictly older than it, hence after every entry at least as new
— the placement a stable descending sort gives. -/
def insertDesc (e : BEntry) : List BEntry → List BEntry
  | [] => [e]
  | x :: xs =>
    if x.createdAt < e.createdAt then e :: x :: xs else x :: insertDesc e xs

/-- Stable descending sort by `createdAt`, modelling
`backups.sort(key=lambda x: x['created_at'], reverse=True)` (line 661):
Python's sort is stable and `reverse=True` keeps equal keys in input order,
which left-to-right insertion after equal keys reproduces. -/
def sortDesc (l : List BEntry) : List BEntry :=
  l.foldl (fun acc e => insertDesc e acc) []

/-- Inserting is a permutation: `insertDesc e l` has exactly `e` and `l`. -/
theorem insertDesc_perm (e : BEntry) :
    ∀ l : List BEntry, List.Perm (insertDesc e l) (e :: l)
  | [] => by simp [insertDesc]
  | x :: xs => by
    unfold insertDesc
    split
    · exact List.Perm.refl _
    · exact ((insertDesc_perm e xs).cons x).trans (List.Perm.swap e x xs)

/-- The sorting fold permutes the accumulator and the input. -/
theorem sortDescAux_perm :
    ∀ (l acc : List BEntry),
      List.Perm (l.foldl (fun acc e => insertDesc e acc) acc) (acc ++ l)
  | [], acc => by simp
  | e :: t, acc => by
    simp only [List.foldl_cons]
    exact (sortDescAux_perm t (insertDesc e acc)).trans
      (((insertDesc_perm e acc).append_right t).trans List.perm_middle.symm)

/-- Sorting permutes the input. -/
theorem sortDesc_perm (l : List BEntry) : List.Perm (sortDesc l) l := by
  unfold sortDesc
  simpa using sortDescAux_perm l []

/-- Inserting into a descending list keeps it descending. -/
theorem pairwise_insertDesc (e : BEntry) :
    ∀ l : List BEntry,
      l.Pairwise (fun a b => b.createdAt ≤ a.createdAt) →
      (insertDesc e l).Pairwise (fun a b => b.createdAt ≤ a.createdAt)
  | [], _ => by simp [insertDesc]
  | x :: xs, hp => by
    unfold insertDesc
    rcases List.pairwise_cons.mp hp with ⟨hx, hxs⟩
    split
    · rename_i h
      refine List.pairwise_cons.mpr ⟨?_, hp⟩
      intro b hb
      rcases List.mem_cons.mp hb with rfl | hbxs
      · omega
      · have := hx b hbxs
        omega
    · rename_i h
      refine List.pairwise_cons.mpr ⟨?_, pairwise_insertDesc e xs hxs⟩
      intro b hb
      rcases List.mem_cons.mp ((insertDesc_perm e xs).mem_iff.mp hb) with
        hbe | hbxs
      · rw [hbe]
        omega
      · exact hx b hbxs

/-- The sorting fold keeps the accumulator descending. -/
theorem pairwise_sortDescAux :
    ∀ (l acc : List BEntry),
      acc.Pairwise (fun a b => b.createdAt ≤ a.createdAt) →
      (l.foldl (fun acc e => insertDesc e acc) acc).Pairwise
        (fun a b => b.createdAt ≤ a.createdAt)
  | [], _, h => h
  | e :: t, acc, h => by
    simp only [List.foldl_cons]
    exact pairwise_sortDescAux t _ (pairwise_insertDesc e acc h)

/-- Sorting yields a list descending by `createdAt`. -/
theorem pairwise_sortDesc (l : List BEntry) :
    (sortDesc l).Pairwise (fun a b => b.createdAt ≤ a.createdAt) :=
  pairwise_sortDescAux l [] List.Pairwise.nil

/-- Model of `list_backups` (lines 623-662): enumerate both artifact shapes, then
`backups.sort(key=lambda x: x['created_at'], reverse=True)` — a stable sort,
newest first. -/
def list_backups (root : RootState) : List BEntry :=
  sortDesc (rawEntries root)

/-- Result record of `cleanup_old_backups` (lines 698-704). -/
structure CleanupResult where
  removedBackups : List FName
  spaceFreed : Nat
  retentionDays : Int
  deriving DecidableEq, Repr

/-- One iteration of the removal loop of `cleanup_old_backups`
(lines 677-696): state is (current root, removed ids so far, bytes freed so
far).  A compressed entry unlinks the archive file and counts its size; an
uncompressed entry recomputes the directory's recursive size and removes the
directory.  Remote copies are never touched. -/
def cleanupStep (cutoff : Int) (st : RootState × List FName × Nat)
    (e : BEntry) : RootState × List FName × Nat :=
  if e.createdAt < cutoff then
    match e.kind with
    | .compressed =>
      match st.1.files.find? (fun f => decide (f.name = e.path)) with
      | some f =>
        ({ st.1 with files := st.1.files.filter fun g => decide (g.name ≠ e.path) },
         st.2.1 ++ [e.backupId], st.2.2 + f.size)
      | none => st
    | .uncompressed =>
      match st.1.dirs.find? (fun d => decide (d.name = e.path)) with
      | some d =>
        ({ st.1 with dirs := st.1.dirs.filter fun g => decide (g.name ≠ e.path) },
         st.2.1 ++ [e.backupId], st.2.2 + d.rglobSize)
      | none => st
  else st

/-- Model of `cleanup_old_backups` (lines 664-711): `cutoff = now - days_to_keep` days,
iterate over `list_backups()` removing every backup strictly older than the
cutoff. -/
def cleanup_old_backups (now : Int) (daysToKeep : Int) (root : RootState) :
    RootState × CleanupResult :=
  let cutoff := now - daysToKeep * 86400
  let st := (list_backups root).foldl (cleanupStep cutoff) (root, [], 0)
  (st.1, { removedBackups := st.2.1, spaceFreed := st.2.2,
           retentionDays := daysToKeep })

/-! ## Model of `create_full_backup` (lines 74-143) and its component helpers -/

/-- Fault-injection flags for the four component backup helpers.  Each helper
in `backup.py` first creates its staging sub-directory *outside* its
`try` block (`mkdir`, e.g. lines 204-205 for models) — a failure there
escapes the helper — and then does its copying work *inside* the `try`
(lines 207-235), where any exception is converted into a
`{'status': 'failed'}` result. -/
structure CompFlags where
  dbMkdirOk : Bool
  dbWorkOk : Bool
  modelsMkdirOk : Bool
  modelsWorkOk : Bool
  configMkdirOk : Bool
  configWorkOk : Bool
  logsMkdirOk : Bool
  logsWorkOk : Bool
  deriving DecidableEq, Repr

/-- Environment of one `create_full_backup` call: the fresh backup id
(`full_backup_<timestamp>`, a single dot-free segment), the clock, the live
database file, the model files found by the two globs of `_backup_models`
(cwd `*.joblib` plus `models/*.joblib`), the existing allow-listed
configuration files, the log files, the manager settings
(`compress_backups`, `verify_backups`), the recursive size of the staging
directory and the size of the compressed archive. -/
structure FullEnv where
  backupId : FName
  now : Int
  liveDB : Option Nat
  modelSrc : List (String × Nat)
  configSrc : List (String × Nat)
  logSrc : List (String × Nat)
  logsDirExists : Bool
  includeLogs : Bool
  compressEnabled : Bool
  verifyEnabled : Bool
  stagedTotal : Nat
  compressedSize : Nat
  flags : CompFlags
  deriving DecidableEq, Repr

/-- Model of `_backup_database` (lines 145-200): `mkdir` failures escape; inside the
`try`, if `building_energy.db` exists it is copied via the sqlite backup API
(any exception there gives `failed`), otherwise the component is `skipped`. -/
def _backup_database (env : FullEnv) : Except Unit (CompStatus × Option Nat) :=
  if env.flags.dbMkdirOk = false then .error () else
  match env.liveDB with
  | some c => if env.flags.dbWorkOk then .ok (.success, some c) else .ok (.failed, none)
  | none => .ok (.skipped, none)

/-- Model of `_backup_models` (lines 202-241): `mkdir` failures escape; inside the
`try` every found `*.joblib` is copied into the staging dir, any exception
gives `failed`. -/
def _backup_models (env : FullEnv) : Except Unit (CompStatus × List (String × Nat)) :=
  if env.flags.modelsMkdirOk = false then .error () else
  if env.flags.modelsWorkOk then .ok (.success, env.modelSrc) else .ok (.failed, [])

/-- Model of `_backup_configuration` (lines 243-297): same shape as models, over the
fixed allow-list of configuration files that exist. -/
def _backup_configuration (env : FullEnv) :
    Except Unit (CompStatus × List (String × Nat)) :=
  if env.flags.configMkdirOk = false then .error () else
  if env.flags.configWorkOk then .ok (.success, env.configSrc) else .ok (.failed, [])

/-- Model of `_backup_logs` (lines 299-340): `mkdir` failures escape; inside the `try`
a missing `logs/` directory gives `skipped`, a copy failure `failed`. -/
def _backup_logs (env : FullEnv) : Except Unit (CompStatus × List (String × Nat)) :=
  if env.flags.logsMkdirOk = false then .error () else
  if env.logsDirExists = false then .ok (.skipped, []) else
  if env.flags.logsWorkOk then .ok (.success, env.logSrc) else .ok (.failed, [])

/-- The `backup_info` dict as initialised at lines 79-87: empty component
map, `total_size_bytes = 0`, `verification_passed = False`. -/
def baseInfo (env : FullEnv) : BInfo :=
  { backupId := env.backupId, backupType := "full", createdAt := env.now,
    sinceTimestamp := none, components := [], totalSizeBytes := 0,
    compressionEnabled := env.compressEnabled, verificationPassed := false,
    errorMsg := none }

/-- The staging directory `<backupRoot>/<id>/` with the given contents. -/
def stagingTree (env : FullEnv) (manifest : Option BInfo) (db : Option Nat)
    (mods cfgs lgs : List (String × Nat)) : DirTree :=
  { name := env.backupId, manifest := manifest, dbFile := db,
    modelFiles := mods, configFiles := cfgs, logFiles := lgs,
    rglobSize := env.stagedTotal }

/-- Place (or overwrite) a directory under the backup root; `mkdir` with
`exist_ok=True` followed by writes, or `tar.extractall` over an existing
directory, both leave exactly this tree at that name for the fresh ids the
system generates. -/
def dirReplaced (root : RootState) (t : DirTree) : RootState :=
  { root with dirs := t :: root.dirs.filter fun d => decide (d.name ≠ t.name) }

/-- Result of `create_full_backup`: the returned in-memory dict, the content
of the `backup_manifest.json` written at lines 110-112 (`none` when the call
failed before writing it), and the resulting backup-root state. -/
structure FullResult where
  info : BInfo
  persisted : Option BInfo
  root : RootState
  deriving DecidableEq, Repr

/-- The `except` branch of `create_full_backup` (lines 140-143): the error is
recorded on the returned dict, no manifest has been written, and the staging
directory is left behind with whatever was staged so far. -/
def failedFull (root : RootState) (info : BInfo) (t : DirTree) : FullResult :=
  { info := { info with errorMsg := some "full backup failed" },
    persisted := none,
    root := dirReplaced root t }

/-- Model of `create_full_backup` (lines 74-143).  Components run in order
database, models, configuration, logs (logs only when `include_logs`); an
exception escaping a component jumps to the outer `except` (lines 140-143).
On the success path the manifest is serialised (lines 110-112) *before* the
in-memory dict gets its recomputed `total_size_bytes` (lines 115-116), the
archive is written and the staging directory removed when compression is on
(lines 119-125), and `_verify_backup` — run against the artifact that was
just written, which it can read back in full — records its result only in
the in-memory dict (lines 128-130). -/
def create_full_backup (env : FullEnv) (root : RootState) : FullResult :=
  let info0 := baseInfo env
  match _backup_database env with
  | .error _ => failedFull root info0 (stagingTree env none none [] [] [])
  | .ok (dbSt, dbC) =>
  let info1 := { info0 with components := info0.components ++ [("database", dbSt)] }
  match _backup_models env with
  | .error _ => failedFull root info1 (stagingTree env none dbC [] [] [])
  | .ok (mSt, mFs) =>
  let info2 := { info1 with components := info1.components ++ [("models", mSt)] }
  match _backup_configuration env with
  | .error _ => failedFull root info2 (stagingTree env none dbC mFs [] [])
  | .ok (cSt, cFs) =>
  let info3 := { info2 with components := info2.components ++ [("configuration", cSt)] }
  let logsRes : Except Unit (BInfo × List (String × Nat)) :=
    if env.includeLogs then
      match _backup_logs env with
      | .error _ => .error ()
      | .ok (lSt, lFs) =>
        .ok ({ info3 with components := info3.components ++ [("logs", lSt)] }, lFs)
    else .ok (info3, [])
  match logsRes with
  | .error _ => failedFull root info3 (stagingTree env none dbC mFs cFs [])
  | .ok (info4, lFs) =>
  let staged := stagingTree env (some info4) dbC mFs cFs lFs
  let info5 := { info4 with totalSizeBytes := env.stagedTotal }
  let root1 :=
    if env.compressEnabled then
      { root with
        files := { name := env.backupId ++ ["tar", "gz"], ctime := env.now,
                   size := env.compressedSize, tree := some staged } :: root.files,
        dirs := root.dirs.filter fun d => decide (d.name ≠ env.backupId) }
    else dirReplaced root staged
  let info6 := { info5 with verificationPassed := env.verifyEnabled }
  { info := info6, persisted := some info4, root := root1 }

/-! ## Model of `create_incremental_backup` (lines 442-500) -/

/-- Environment of one `create_incremental_backup` call: the files the two
globs enumerate — `Path('.').glob('*.joblib')` (line 459) and
`Path('logs').glob('*.log*')` (line 477) — each as (name, mtime, content). -/
structure IncEnv where
  backupId : FName
  now : Int
  cwdJoblib : List (String × Int × Nat)
  logsDirExists : Bool
  logFiles : List (String × Int × Nat)
  deriving DecidableEq, Repr

/-- Result of `create_incremental_backup`: the reported changed model names,
the reported recent log names (`none` when `logs/` does not exist, in which
case the manifest has no `logs` component), and the staging directory left
under the backup root. -/
structure IncResult where
  backupId : FName
  sinceUsed : Int
  createdAt : Int
  changedModels : List String
  recentLogs : Option (List String)
  tree : DirTree
  deriving DecidableEq, Repr

/-- Model of `create_incremental_backup(last_backup_time)` (lines 442-500): copy into
the staging directory exactly the `*.joblib` files of the current directory
and (when `logs/` exists) the `logs/*.log*` files whose `st_mtime` is
*strictly* greater than `last_backup_time.timestamp()` (lines 462, 478);
nothing of the database or the configuration is read, and the manifest of
lines 448-454 is written into the staging directory. -/
def create_incremental_backup (since : Int) (env : IncEnv) : IncResult :=
  let changed := env.cwdJoblib.filter fun f => decide (since < f.2.1)
  let recent :=
    if env.logsDirExists then
      some (env.logFiles.filter fun f => decide (since < f.2.1))
    else none
  let incInfo : BInfo :=
    { backupId := env.backupId, backupType := "incremental",
      createdAt := env.now, sinceTimestamp := some since,
      components := [], totalSizeBytes := 0, compressionEnabled := false,
      verificationPassed := false, errorMsg := none }
  { backupId := env.backupId, sinceUsed := since, createdAt := env.now,
    changedModels := changed.map (·.1),
    recentLogs := (recent.map (List.map (·.1))),
    tree :=
      { name := env.backupId, manifest := some incInfo, dbFile := none,
        modelFiles := changed.map fun f => (f.1, f.2.2),
        configFiles := [],
        logFiles := (recent.getD []).map fun f => (f.1, f.2.2),
        rglobSize := 0 } }

/-! ## Model of `restore_backup` (lines 502-563) and its component helpers -/

/-- Result record of `restore_backup` (lines 504-509, 555, 562). -/
structure RestoreResult where
  backupId : FName
  componentsRestored : List String
  errors : List String
  fatal : Bool
  deriving DecidableEq, Repr

/-- Artifact resolution of `restore_backup` (lines 512-525): look for
`<backupRoot>/<backup_id>.tar.gz` first; if found, `tar.extractall` unpacks
its top-level entry (named by the `arcname` chosen at compression time) next
to it, and `backup_path = <backupRoot>/<backup_id>` is used afterwards —
whether or not the extracted entry actually has that name.  Otherwise a
directory `<backupRoot>/<backup_id>` is used.  Otherwise (or when the archive
cannot be opened) the call is fatal: `none`. -/
def locateBackup (root : RootState) (bid : FName) :
    Option (RootState × Option DirTree) :=
  match root.files.find? (fun f => decide (f.name = bid ++ ["tar", "gz"])) with
  | some f =>
    match f.tree with
    | some t =>
      let root1 := dirReplaced root t
      some (root1, root1.dirs.find? (fun d => decide (d.name = bid)))
    | none => none
  | none =>
    match root.dirs.find? (fun d => decide (d.name = bid)) with
    | some d => some (root, some d)
    | none => none

/-- Model of `_restore_database` (lines 565-580), with a fault-injection flag for the
final `shutil.copy2` onto the live file.  If the backup contains
`database/building_energy.db`: first copy the *live* database (if any) to
`building_energy_pre_restore_<int(time.time())>.db` (lines 571-574), then
overwrite the live file (line 577).  A missing backup copy raises
`FileNotFoundError` (line 580).  `false` in the second slot is an escaping
exception. -/
def _restore_database (src : Option DirTree) (now : Int) (dbCopyOk : Bool)
    (live : LiveState) : LiveState × Bool :=
  match src with
  | none => (live, false)
  | some t =>
    match t.dbFile with
    | none => (live, false)
    | some c =>
      let live1 :=
        match live.liveDB with
        | some cur => { live with safetyCopies := (now, cur) :: live.safetyCopies }
        | none => live
      if dbCopyOk then ({ live1 with liveDB := some c }, true) else (live1, false)

/-- Copying (`shutil.copy2`) one file into a directory modelled as an association
list: overwrite any previous entry of that name. -/
def upsert (l : List (String × Nat)) (k : String) (v : Nat) :
    List (String × Nat) :=
  (l.filter fun p => decide (p.1 ≠ k)) ++ [(k, v)]

/-- Model of `_restore_models` (lines 582-597): when the backup has no `models`
directory this is only a warning (no exception); otherwise every `*.joblib`
in it is copied to the current directory.  A backup directory whose models
list is empty is observationally the warning case. -/
def _restore_models (src : Option DirTree) (live : LiveState) :
    LiveState × Bool :=
  match src with
  | none => (live, true)
  | some t =>
    ({ live with
       models := t.modelFiles.foldl (fun acc p => upsert acc p.1 p.2) live.models },
     true)

/-- One iteration of the copy loop of `_restore_configuration`
(lines 606-619): `backup_metadata.json` is skipped; before overwriting a
live `.env` the current one is copied aside to `.env.backup_<ts>`. -/
def configRestoreStep (now : Int) (acc : LiveState) (p : String × Nat) :
    LiveState :=
  if p.1 = "backup_metadata.json" then acc
  else
    let acc1 :=
      if p.1 = ".env" then
        match acc.configs.find? (fun q => decide (q.1 = ".env")) with
        | some q => { acc with envBackups := (now, q.2) :: acc.envBackups }
        | none => acc
      else acc
    { acc1 with configs := upsert acc1.configs p.1 p.2 }

/-- Model of `_restore_configuration` (lines 599-621): missing `configuration`
directory is only a warning; otherwise each stored file is copied back. -/
def _restore_configuration (src : Option DirTree) (now : Int)
    (live : LiveState) : LiveState × Bool :=
  match src with
  | none => (live, true)
  | some t => (t.configFiles.foldl (configRestoreStep now) live, true)

/-- The body of the per-component loop of `restore_backup` (lines 539-553):
only the three recognised names dispatch to a helper; any other requested
name does nothing — and then falls through to the
`components_restored.append` at line 548. -/
def restoreStep (src : Option DirTree) (now : Int) (dbCopyOk : Bool)
    (c : String) (live : LiveState) : LiveState × Bool :=
  if c = "database" then _restore_database src now dbCopyOk live
  else if c = "models" then _restore_models src live
  else if c = "configuration" then _restore_configuration src now live
  else (live, true)

/-- The per-component loop of `restore_backup` (lines 539-553): run the
requested components in order, collecting `components_restored` on success
and an error string on a caught exception. -/
def runComponents (src : Option DirTree) (now : Int) (dbCopyOk : Bool) :
    List String → LiveState → LiveState × List String × List String
  | [], live => (live, [], [])
  | c :: rest, live =>
    let s := restoreStep src now dbCopyOk c live
    let r := runComponents src now dbCopyOk rest s.1
    if s.2 then (r.1, c :: r.2.1, r.2.2)
    else (r.1, r.2.1, ("Failed to restore " ++ c) :: r.2.2)

/-- Model of `restore_backup` (lines 502-563): resolve the artifact (fatal when
neither shape exists, lines 524-525 and 560-563), default the requested
components to `['database', 'models', 'configuration']` (lines 536-537), and
run the loop.  The write side under the backup root is only the extraction
performed by `locateBackup`; nothing is deleted. -/
def restore_backup (bid : FName) (comps : Option (List String)) (now : Int)
    (dbCopyOk : Bool) (root : RootState) (live : LiveState) :
    RootState × LiveState × RestoreResult :=
  match locateBackup root bid with
  | none =>
    (root, live,
     { backupId := bid, componentsRestored := [], errors := [], fatal := true })
  | some (root1, src) =>
    let wanted := comps.getD ["database", "models", "configuration"]
    let r := runComponents src now dbCopyOk wanted live
    (root1, r.1,
     { backupId := bid, componentsRestored := r.2.1, errors := r.2.2,
       fatal := false })

/-! ## Model of `_verify_backup` (lines 352-389) -/

/-- One member of a tar archive as `_verify_backup` sees it: whether
`member.isfile()`, and whether `tar.extractfile(member).read(...)` succeeds
(reading raises on a corrupted stream). -/
structure TarMember where
  isFile : Bool
  readable : Bool
  deriving DecidableEq, Repr

/-- A compressed artifact as `_verify_backup` sees it: whether
`tar.getmembers()` succeeds, the members, and the `backup_manifest.json`
packed inside the archive (which `_verify_backup` never opens). -/
structure TarArchive where
  listable : Bool
  members : List TarMember
  manifestInside : Option BInfo
  deriving DecidableEq, Repr

/-- Model of `_verify_backup` (lines 352-389).  Compressed branch: the archive file
must exist, `getmembers()` must succeed and every file member must be
readable; any exception gives `False`.  Uncompressed branch: the backup
directory and its `backup_manifest.json` must exist.  No content is compared
against the creation-time manifest in either branch. -/
def _verify_backup (info : BInfo) (archiveOnDisk : Option TarArchive)
    (dirExists : Bool) (dirManifestExists : Bool) : Bool :=
  if info.compressionEnabled then
    match archiveOnDisk with
    | none => false
    | some a =>
      if a.listable then a.members.all (fun m => !m.isFile || m.readable)
      else false
  else
    dirExists && dirManifestExists

/-- Modelled from the spec (spec §4.2, `Verify`): true only when the archive
is readable end-to-end *and* the manifest file it contains matches the one
written at creation time.  Stated separately so it can be compared with the
source-derived `_verify_backup`. -/
def verifySpecced (creation : BInfo) (archiveOnDisk : Option TarArchive) :
    Bool :=
  match archiveOnDisk with
  | none => false
  | some a =>
    a.listable && a.members.all (fun m => !m.isFile || m.readable)
      && decide (a.manifestInside = some creation)

/-! ## Artifact-shape predicates (spec §3, BackupArtifact) -/

/-- The compressed archive `<backupRoot>/<id>.tar.gz` exists. -/
def hasArchive (root : RootState) (bid : FName) : Bool :=
  root.files.any fun f => decide (f.name = bid ++ ["tar", "gz"])

/-- The uncompressed directory `<backupRoot>/<id>/` exists. -/
def hasDir (root : RootState) (bid : FName) : Bool :=
  root.dirs.any fun d => decide (d.name = bid)

/-- Exactly one of the two artifact shapes for `bid` exists. -/
def exactlyOneArtifact (root : RootState) (bid : FName) : Bool :=
  hasArchive root bid != hasDir root bid

/-! ## Claim C3: what `_verify_backup` actually checks -/

/-- A creation-time manifest for a compressed backup. -/
def infoC3 : BInfo :=
  { backupId := ["full_backup_20250101_120000"], backupType := "full",
    createdAt := 100, sinceTimestamp := none,
    components := [("database", .success)], totalSizeBytes := 0,
    compressionEnabled := true, verificationPassed := false, errorMsg := none }

/-- A different manifest (a later creation time). -/
def infoC3' : BInfo := { infoC3 with createdAt := 200 }

/-- A fully readable archive whose packed manifest is `infoC3'`,
not `infoC3`. -/
def archC3 : TarArchive :=
  { listable := true,
    members := [{ isFile := true, readable := true }],
    manifestInside := some infoC3' }

/-- Claim C3, counterexample: `_verify_backup` returns `true` on a readable
archive whose contained manifest does **not** match the creation-time
manifest, so Verify does not return true only when condition (b) of the
claim holds. -/
theorem claim_C3_counterexample :
    _verify_backup infoC3 (some archC3) false false = true ∧
    verifySpecced infoC3 (some archC3) = false := by decide

/-- Claim C3 (amended): for a compressed artifact, `_verify_backup` returns
true exactly when the archive's member list can be read and every file
member's data can be read; it performs no comparison of the manifest packed
inside the archive against the creation-time manifest (its result is
invariant under changing that packed manifest). -/
theorem claim_C3_amended (info : BInfo) (a : TarArchive) (d dm : Bool)
    (h : info.compressionEnabled = true) :
    ((_verify_backup info (some a) d dm = true) ↔
      (a.listable = true ∧ ∀ m ∈ a.members, m.isFile = true → m.readable = true)) ∧
    (∀ man₁ man₂ : Option BInfo,
      _verify_backup info (some { a with manifestInside := man₁ }) d dm =
      _verify_backup info (some { a with manifestInside := man₂ }) d dm) := by
  constructor
  · simp only [_verify_backup, h, if_true]
    cases hl : a.listable with
    | false => simp
    | true =>
      simp only [if_true, List.all_eq_true, Bool.or_eq_true, Bool.not_eq_true',
        true_and]
      constructor
      · intro hall m hm hf
        rcases hall m hm with h' | h'
        · rw [hf] at h'; cases h'
        · exact h'
      · intro hall m hm
        cases hf : m.isFile with
        | false => exact Or.inl rfl
        | true => exact Or.inr (hall m hm hf)
  · intro man₁ man₂
    simp [_verify_backup, h]

/-- Witness for the amended C3 at a concrete readable archive. -/
theorem claim_C3_amended_witness :
    infoC3.compressionEnabled = true ∧
    ((_verify_backup infoC3 (some archC3) false false = true) ↔
      (archC3.listable = true ∧
        ∀ m ∈ archC3.members, m.isFile = true → m.readable = true)) :=
  ⟨by decide, (claim_C3_amended infoC3 archC3 false false (by decide)).1⟩

/-! ## Claim C9: the persisted manifest is the pre-size, pre-verify snapshot -/

/-- Claim C9: whenever `create_full_backup` reaches the manifest write (no
component staging `mkdir` escaped), the `backup_manifest.json` it leaves
behind records `total_size_bytes = 0` and `verification_passed = false`,
while the in-memory record it returns carries the recomputed total size and
the verification outcome — the later stages never rewrite the file. -/
theorem claim_C9_persisted_manifest (env : FullEnv) (root : RootState)
    (h1 : env.flags.dbMkdirOk = true) (h2 : env.flags.modelsMkdirOk = true)
    (h3 : env.flags.configMkdirOk = true)
    (h4 : env.includeLogs = true → env.flags.logsMkdirOk = true) :
    (create_full_backup env root).persisted.map (·.totalSizeBytes) = some 0 ∧
    (create_full_backup env root).persisted.map (·.verificationPassed) = some false ∧
    (create_full_backup env root).info.totalSizeBytes = env.stagedTotal ∧
    (create_full_backup env root).info.verificationPassed = env.verifyEnabled := by
  obtain ⟨dbSt, dbC, hdb⟩ : ∃ s c, _backup_database env = .ok (s, c) := by
    simp only [_backup_database, h1]
    cases env.liveDB with
    | none => exact ⟨.skipped, none, rfl⟩
    | some c =>
      cases hw : env.flags.dbWorkOk with
      | false => exact ⟨.failed, none, by simp [hw]⟩
      | true => exact ⟨.success, some c, by simp [hw]⟩
  obtain ⟨mSt, mFs, hm⟩ : ∃ s l, _backup_models env = .ok (s, l) := by
    simp only [_backup_models, h2]
    cases hw : env.flags.modelsWorkOk with
    | false => exact ⟨.failed, [], by simp [hw]⟩
    | true => exact ⟨.success, env.modelSrc, by simp [hw]⟩
  obtain ⟨cSt, cFs, hc⟩ : ∃ s l, _backup_configuration env = .ok (s, l) := by
    simp only [_backup_configuration, h3]
    cases hw : env.flags.configWorkOk with
    | false => exact ⟨.failed, [], by simp [hw]⟩
    | true => exact ⟨.success, env.configSrc, by simp [hw]⟩
  cases hil : env.includeLogs with
  | false =>
    refine ⟨?_, ?_, ?_, ?_⟩ <;>
      simp [create_full_backup, hdb, hm, hc, hil, baseInfo]
  | true =>
    obtain ⟨lSt, lFs, hlg⟩ : ∃ s l, _backup_logs env = .ok (s, l) := by
      simp only [_backup_logs, h4 hil]
      cases hd : env.logsDirExists with
      | false => exact ⟨.skipped, [], by simp [hd]⟩
      | true =>
        cases hw : env.flags.logsWorkOk with
        | false => exact ⟨.failed, [], by simp [hd, hw]⟩
        | true => exact ⟨.success, env.logSrc, by simp [hd, hw]⟩
    refine ⟨?_, ?_, ?_, ?_⟩ <;>
      simp [create_full_backup, hdb, hm, hc, hil, hlg, baseInfo]

/-- A fully healthy environment used by several witnesses. -/
def envOk : FullEnv :=
  { backupId := ["full_backup_20250103_090000"], now := 5000,
    liveDB := some 7, modelSrc := [("model_a.joblib", 3)],
    configSrc := [(".env", 11)], logSrc := [], logsDirExists := false,
    includeLogs := false, compressEnabled := true, verifyEnabled := true,
    stagedTotal := 1234, compressedSize := 345,
    flags := { dbMkdirOk := true, dbWorkOk := true, modelsMkdirOk := true,
               modelsWorkOk := true, configMkdirOk := true,
               configWorkOk := true, logsMkdirOk := true, logsWorkOk := true } }

/-- The empty backup root. -/
def rootEmpty : RootState := { files := [], dirs := [], remote := [] }

/-- Witness for C9: on a healthy run the file records `0`/`false` while the
returned record says `1234`/`true`. -/
theorem claim_C9_persisted_manifest_witness :
    (create_full_backup envOk rootEmpty).persisted.map (·.totalSizeBytes) = some 0 ∧
    (create_full_backup envOk rootEmpty).persisted.map (·.verificationPassed) = some false ∧
    (create_full_backup envOk rootEmpty).info.totalSizeBytes = envOk.stagedTotal ∧
    (create_full_backup envOk rootEmpty).info.verificationPassed = envOk.verifyEnabled :=
  claim_C9_persisted_manifest envOk rootEmpty rfl rfl rfl (fun h => by cases h)

/-! ## Claim C2: partial-failure containment for the Models component -/

/-- An environment in which the Database component succeeds and the Models
component raises while creating its staging sub-directory (`mkdir` at
lines 204-205 of `backup.py`, which sits *outside* the component's `try`). -/
def envC2 : FullEnv :=
  { envOk with
    flags := { envOk.flags with modelsMkdirOk := false } }

/-- Claim C2, counterexample: when the Models component's exception is the
staging `mkdir` (outside its `try`), `create_full_backup` still does not
raise and `components.database` is `Success`, but the returned record does
**not** contain `components.models` with status `Failed` — the `models` key
is absent and the `error` field is set instead. -/
theorem claim_C2_counterexample :
    ((create_full_backup envC2 rootEmpty).info.components.lookup "database"
        = some .success) ∧
    ¬ ((create_full_backup envC2 rootEmpty).info.components.lookup "models"
        = some .failed) ∧
    ((create_full_backup envC2 rootEmpty).info.components.lookup "models"
        = none) ∧
    ((create_full_backup envC2 rootEmpty).info.errorMsg.isSome = true) := by
  decide

/-- Claim C2 (amended): `create_full_backup` never raises, and when the
Database component succeeded, a Models failure is contained as the claim
says *provided the exception arises inside the component's guarded copying
work*: then `components.database = Success` and `components.models =
Failed`.  If instead the models staging `mkdir` itself raises, the exception
escapes the component and is caught by `create_full_backup`'s outer handler:
`components.database` is still `Success`, but the `models` entry is absent
and the record's `error` field is set. -/
theorem claim_C2_amended (env : FullEnv) (root : RootState)
    (hdb1 : env.flags.dbMkdirOk = true) (hdb2 : env.flags.dbWorkOk = true)
    (hdbe : env.liveDB.isSome = true) :
    ((env.flags.modelsMkdirOk = true → env.flags.modelsWorkOk = false →
      ((create_full_backup env root).info.components.lookup "database"
          = some .success ∧
       (create_full_backup env root).info.components.lookup "models"
          = some .failed)) ∧
     (env.flags.modelsMkdirOk = false →
      ((create_full_backup env root).info.components.lookup "database"
          = some .success ∧
       (create_full_backup env root).info.components.lookup "models" = none ∧
       (create_full_backup env root).info.errorMsg.isSome = true))) := by
  obtain ⟨dbc, hdbc⟩ := Option.isSome_iff_exists.mp hdbe
  have hdb : _backup_database env = .ok (.success, some dbc) := by
    simp [_backup_database, hdb1, hdbc, hdb2]
  constructor
  · intro hmk hmw
    have hm : _backup_models env = .ok (.failed, []) := by
      simp [_backup_models, hmk, hmw]
    rcases hcfg : _backup_configuration env with e | ⟨cSt, cFs⟩
    · constructor <;>
        simp [create_full_backup, hdb, hm, hcfg, failedFull, baseInfo,
          List.lookup]
    · cases hil : env.includeLogs with
      | false =>
        constructor <;>
          simp [create_full_backup, hdb, hm, hcfg, hil, baseInfo, List.lookup]
      | true =>
        rcases hlg : _backup_logs env with e | ⟨lSt, lFs⟩
        · constructor <;>
            simp [create_full_backup, hdb, hm, hcfg, hil, hlg, failedFull,
              baseInfo, List.lookup]
        · constructor <;>
            simp [create_full_backup, hdb, hm, hcfg, hil, hlg, baseInfo,
              List.lookup]
  · intro hmk
    have hm : _backup_models env = .error () := by
      simp [_backup_models, hmk]
    refine ⟨?_, ?_, ?_⟩ <;>
      simp [create_full_backup, hdb, hm, failedFull, baseInfo, List.lookup]

/-- An environment in which the Models component fails inside its guarded
copying work (the `try` of lines 207-235). -/
def envC2w : FullEnv :=
  { envOk with
    flags := { envOk.flags with modelsWorkOk := false } }

/-- Witness for the amended C2 at a concrete guarded-failure environment. -/
theorem claim_C2_amended_witness :
    (create_full_backup envC2w rootEmpty).info.components.lookup "database"
        = some .success ∧
    (create_full_backup envC2w rootEmpty).info.components.lookup "models"
        = some .failed :=
  (claim_C2_amended envC2w rootEmpty rfl rfl rfl).1 rfl rfl

/-! ## Restore-loop lemmas shared by the restore claims -/

/-- One configuration copy never touches the safety copies or the live
database file. -/
theorem configRestoreStep_fields (now : Int) (acc : LiveState)
    (p : String × Nat) :
    (configRestoreStep now acc p).safetyCopies = acc.safetyCopies ∧
    (configRestoreStep now acc p).liveDB = acc.liveDB := by
  unfold configRestoreStep
  split
  · exact ⟨rfl, rfl⟩
  · split
    · split <;> exact ⟨rfl, rfl⟩
    · exact ⟨rfl, rfl⟩

/-- The configuration copy loop never touches the safety copies or the live
database file. -/
theorem configFold_fields (now : Int) :
    ∀ (l : List (String × Nat)) (acc : LiveState),
    (l.foldl (configRestoreStep now) acc).safetyCopies = acc.safetyCopies ∧
    (l.foldl (configRestoreStep now) acc).liveDB = acc.liveDB
  | [], acc => ⟨rfl, rfl⟩
  | p :: t, acc => by
    have h1 := configRestoreStep_fields now acc p
    have h2 := configFold_fields now t (configRestoreStep now acc p)
    simp only [List.foldl_cons]
    exact ⟨h2.1.trans h1.1, h2.2.trans h1.2⟩

/-- The database restore step only ever prepends to the safety-copy list. -/
theorem _restore_database_safety_mono (src : Option DirTree) (now : Int)
    (ok : Bool) (live : LiveState) (x : Int × Nat)
    (hx : x ∈ live.safetyCopies) :
    x ∈ (_restore_database src now ok live).1.safetyCopies := by
  rcases src with _ | t
  · simpa only [_restore_database] using hx
  · rcases hdb : t.dbFile with _ | c
    · simpa only [_restore_database, hdb] using hx
    · rcases hl : live.liveDB with _ | cur <;> cases ok <;>
        simp only [_restore_database, hdb, hl, Bool.false_eq_true,
          ite_true, ite_false] <;>
        first
          | exact hx
          | exact List.mem_cons_of_mem _ hx

/-- No component step ever drops a safety copy. -/
theorem restoreStep_safety_mono (src : Option DirTree) (now : Int) (ok : Bool)
    (c : String) (live : LiveState) (x : Int × Nat)
    (hx : x ∈ live.safetyCopies) :
    x ∈ (restoreStep src now ok c live).1.safetyCopies := by
  unfold restoreStep
  split
  · exact _restore_database_safety_mono src now ok live x hx
  · split
    · rcases src with _ | t
      · simpa only [_restore_models] using hx
      · simpa only [_restore_models] using hx
    · split
      · rcases src with _ | t
        · simpa only [_restore_configuration] using hx
        · simp only [_restore_configuration]
          rw [(configFold_fields now t.configFiles live).1]
          exact hx
      · exact hx

/-- A component step other than `database` leaves the live database file
alone. -/
theorem restoreStep_liveDB_of_ne (src : Option DirTree) (now : Int)
    (ok : Bool) (c : String) (live : LiveState) (hc : c ≠ "database") :
    (restoreStep src now ok c live).1.liveDB = live.liveDB := by
  unfold restoreStep
  rw [if_neg hc]
  split
  · rcases src with _ | t
    · simp only [_restore_models]
    · simp only [_restore_models]
  · split
    · rcases src with _ | t
      · simp only [_restore_configuration]
      · simp only [_restore_configuration]
        exact (configFold_fields now t.configFiles live).2
    · rfl

/-- Once the live database holds the backup content, no later step of a
successful restore changes it (a repeated `database` component rewrites the
same content). -/
theorem restoreStep_liveDB_stable (t : DirTree) (now : Int) (c : String)
    (live : LiveState) (cb : Nat) (hdb : t.dbFile = some cb)
    (hl : live.liveDB = some cb) :
    (restoreStep (some t) now true c live).1.liveDB = some cb := by
  by_cases hc : c = "database"
  · subst hc
    unfold restoreStep _restore_database
    simp [hdb, hl]
  · rw [restoreStep_liveDB_of_ne _ _ _ _ _ hc]
    exact hl

/-- The restore loop never drops a safety copy. -/
theorem runComponents_safety_mono (src : Option DirTree) (now : Int)
    (ok : Bool) :
    ∀ (comps : List String) (live : LiveState) (x : Int × Nat),
      x ∈ live.safetyCopies →
      x ∈ (runComponents src now ok comps live).1.safetyCopies
  | [], _, _, hx => hx
  | c :: rest, live, x, hx => by
    have h1 := restoreStep_safety_mono src now ok c live x hx
    have h2 := runComponents_safety_mono src now ok rest
      (restoreStep src now ok c live).1 x h1
    unfold runComponents
    cases hs : (restoreStep src now ok c live).2 <;> simp [hs] <;> exact h2

/-- The restore loop keeps the live database at the backup content once it
is there (all copies succeeding). -/
theorem runComponents_liveDB_stable (t : DirTree) (now : Int) (cb : Nat)
    (hdb : t.dbFile = some cb) :
    ∀ (comps : List String) (live : LiveState),
      live.liveDB = some cb →
      (runComponents (some t) now true comps live).1.liveDB = some cb
  | [], _, hl => hl
  | c :: rest, live, hl => by
    have h1 := restoreStep_liveDB_stable t now c live cb hdb hl
    have h2 := runComponents_liveDB_stable t now cb hdb rest
      (restoreStep (some t) now true c live).1 h1
    unfold runComponents
    cases hs : (restoreStep (some t) now true c live).2 <;> simp [hs] <;> exact h2

/-- Heart of claim C1: a restore loop that includes the `database`
component, run against a backup that contains a database copy, records the
pre-restore live content as a timestamped safety copy — and keeps it under
any later failure — and, when the overwrite copy succeeds, ends with the
live file holding the backup content. -/
theorem runComponents_db_safety (t : DirTree) (now : Int) (ok : Bool)
    (cb L : Nat) (hdb : t.dbFile = some cb) :
    ∀ (comps : List String) (live : LiveState),
      "database" ∈ comps → live.liveDB = some L →
      ((now, L) ∈ (runComponents (some t) now ok comps live).1.safetyCopies ∧
       (ok = true →
         (runComponents (some t) now ok comps live).1.liveDB = some cb))
  | [], _, hmem, _ => absurd hmem (List.not_mem_nil _)
  | c :: rest, live, hmem, hl => by
    by_cases hc : c = "database"
    · subst hc
      have hstep1 : (now, L) ∈
          (restoreStep (some t) now ok "database" live).1.safetyCopies := by
        unfold restoreStep _restore_database
        cases ok <;> simp [hdb, hl]
      have hmono := runComponents_safety_mono (some t) now ok rest
        (restoreStep (some t) now ok "database" live).1 (now, L) hstep1
      constructor
      · unfold runComponents
        cases hs : (restoreStep (some t) now ok "database" live).2 <;>
          simp [hs] <;> exact hmono
      · intro hok
        subst hok
        have hstep2 :
            (restoreStep (some t) now true "database" live).1.liveDB = some cb := by
          unfold restoreStep _restore_database
          simp [hdb, hl]
        have hrest := runComponents_liveDB_stable t now cb hdb rest
          (restoreStep (some t) now true "database" live).1 hstep2
        unfold runComponents
        cases hs : (restoreStep (some t) now true "database" live).2 <;>
          simp [hs] <;> exact hrest
    · have hmem' : "database" ∈ rest := by
        rcases List.mem_cons.mp hmem with h | h
        · exact absurd h.symm hc
        · exact h
      have hl' : (restoreStep (some t) now ok c live).1.liveDB = some L := by
        rw [restoreStep_liveDB_of_ne _ _ _ _ _ hc]
        exact hl
      have ih := runComponents_db_safety t now ok cb L hdb rest
        (restoreStep (some t) now ok c live).1 hmem' hl'
      unfold runComponents
      cases hs : (restoreStep (some t) now ok c live).2 <;> simp [hs] <;>
        exact ⟨ih.1, ih.2⟩

/-- Claim C1: whenever `restore_backup` performs a Database restore (the
resolved backup contains `database/building_energy.db` and `database` is
among the requested components) and a live `building_energy.db` exists, the
pre-restore live content is copied to the timestamped
`building_energy_pre_restore_<ts>.db` safety file; the safety copy is
present in the final state whether or not the overwrite (or any later
component) fails, and on a successful overwrite the live file holds the
backup content. -/
theorem claim_C1_restore_safety (root root1 : RootState) (live : LiveState)
    (bid : FName) (comps : List String) (now : Int) (ok : Bool)
    (t : DirTree) (cb L : Nat)
    (hloc : locateBackup root bid = some (root1, some t))
    (hdb : t.dbFile = some cb) (hl : live.liveDB = some L)
    (hmem : "database" ∈ comps) :
    ((now, L) ∈
      (restore_backup bid (some comps) now ok root live).2.1.safetyCopies ∧
     (ok = true →
      (restore_backup bid (some comps) now ok root live).2.1.liveDB = some cb)) := by
  have h := runComponents_db_safety t now ok cb L hdb comps live hmem hl
  unfold restore_backup
  rw [hloc]
  simpa using h

/-- A directory-shaped backup containing a database copy with content 42. -/
def treeW : DirTree :=
  { name := ["full_backup_x"], manifest := none, dbFile := some 42,
    modelFiles := [], configFiles := [], logFiles := [], rglobSize := 10 }

/-- A backup root holding only `treeW`. -/
def rootW1 : RootState := { files := [], dirs := [treeW], remote := [] }

/-- A live state with a live database of content 9. -/
def liveW : LiveState :=
  { liveDB := some 9, safetyCopies := [], models := [], configs := [],
    envBackups := [] }

/-- Witness for C1 at a concrete backup and live state. -/
theorem claim_C1_restore_safety_witness :
    ((77, 9) ∈
      (restore_backup ["full_backup_x"] (some ["database"]) 77 true rootW1
        liveW).2.1.safetyCopies ∧
     (true = true →
      (restore_backup ["full_backup_x"] (some ["database"]) 77 true rootW1
        liveW).2.1.liveDB = some 42)) :=
  claim_C1_restore_safety rootW1 rootW1 liveW ["full_backup_x"] ["database"]
    77 true treeW 42 9 (by decide) rfl rfl (by decide)

/-! ## Claim C10: unrecognised component names are reported as restored -/

/-- A requested component name outside the three recognised ones always ends
up in `components_restored`. -/
theorem runComponents_unknown_mem (src : Option DirTree) (now : Int)
    (ok : Bool) :
    ∀ (comps : List String) (live : LiveState) (c : String),
      c ∈ comps → c ≠ "database" → c ≠ "models" → c ≠ "configuration" →
      c ∈ (runComponents src now ok comps live).2.1
  | [], _, _, hc, _, _, _ => absurd hc (List.not_mem_nil _)
  | h :: rest, live, c, hc, h1, h2, h3 => by
    rcases List.mem_cons.mp hc with rfl | hmem
    · have hstep : restoreStep src now ok c live = (live, true) := by
        unfold restoreStep
        rw [if_neg h1, if_neg h2, if_neg h3]
      unfold runComponents
      rw [hstep]
      simp
    · have ih := runComponents_unknown_mem src now ok rest
        (restoreStep src now ok h live).1 c hmem h1 h2 h3
      unfold runComponents
      cases hs : (restoreStep src now ok h live).2 <;> simp [hs]
      · exact ih
      · exact Or.inr ih

/-- Claim C10: for a component name outside
`{database, models, configuration}` (e.g. `logs`) requested from
`restore_backup`, the loop performs no restore action for that name (the
step is the identity on the live state and raises nothing), yet the name is
still appended to `components_restored`, so the result reports it as
successfully restored. -/
theorem claim_C10_unknown_component (root root1 : RootState)
    (live : LiveState) (bid : FName) (comps : List String) (now : Int)
    (ok : Bool) (src : Option DirTree) (c : String)
    (hloc : locateBackup root bid = some (root1, src))
    (hc : c ∈ comps) (h1 : c ≠ "database") (h2 : c ≠ "models")
    (h3 : c ≠ "configuration") :
    (∀ l : LiveState, restoreStep src now ok c l = (l, true)) ∧
    c ∈ (restore_backup bid (some comps) now ok root
          live).2.2.componentsRestored := by
  constructor
  · intro l
    unfold restoreStep
    rw [if_neg h1, if_neg h2, if_neg h3]
  · have h := runComponents_unknown_mem src now ok comps live c hc h1 h2 h3
    unfold restore_backup
    rw [hloc]
    simpa using h

/-- Witness for C10: requesting `logs` from a backup that has no logs
content still reports `logs` as restored. -/
theorem claim_C10_unknown_component_witness :
    restoreStep (some treeW) 77 true "logs" liveW = (liveW, true) ∧
    "logs" ∈ (restore_backup ["full_backup_x"] (some ["database", "logs"]) 77
      true rootW1 liveW).2.2.componentsRestored := by
  have h := claim_C10_unknown_component rootW1 rootW1 liveW ["full_backup_x"]
    ["database", "logs"] 77 true (some treeW) "logs" (by decide) (by decide)
    (by decide) (by decide) (by decide)
  exact ⟨h.1 liveW, h.2⟩

/-! ## Claim C7: the exactly-one-artifact invariant -/

/-- Filtering out every directory named `bid` leaves no directory named
`bid`. -/
theorem hasDir_filter_ne (l : List DirTree) (bid : FName) :
    (l.filter fun d => decide (d.name ≠ bid)).any
      (fun d => decide (d.name = bid)) = false := by
  rw [List.any_eq_false]
  intro d hd
  have h := (List.mem_filter.mp hd).2
  simp only [decide_eq_true_iff] at h ⊢
  exact h

/-- The packed content of the compressed artifact produced for
`full_backup_b`. -/
def treeC7 : DirTree :=
  { name := ["full_backup_b"], manifest := none, dbFile := some 1,
    modelFiles := [], configFiles := [], logFiles := [], rglobSize := 3 }

/-- The compressed artifact `full_backup_b.tar.gz`. -/
def fileC7 : ArchiveFile :=
  { name := ["full_backup_b", "tar", "gz"], ctime := 10, size := 5,
    tree := some treeC7 }

/-- A backup root holding exactly the compressed backup `full_backup_b`. -/
def rootC7 : RootState := { files := [fileC7], dirs := [], remote := [] }

/-- Claim C7, counterexample: a backup root in which exactly one artifact
shape exists for `full_backup_b` stops satisfying the invariant after
`restore_backup` of that very backup: the extraction leaves the directory
next to the archive and nothing deletes it. -/
theorem claim_C7_counterexample :
    exactlyOneArtifact rootC7 ["full_backup_b"] = true ∧
    exactlyOneArtifact
      (restore_backup ["full_backup_b"] none 50 true rootC7 liveW).1
      ["full_backup_b"] = false := by decide

/-- Claim C7 (amended): when `create_full_backup` returns (on any of its
paths) under a fresh id, exactly one of the uncompressed directory and the
compressed archive exists for that id; but `restore_backup` on a compressed
backup does *not* preserve the invariant: it extracts the packed directory
into the backup root and deletes nothing, so afterwards the archive and the
directory both exist. -/
theorem claim_C7_amended :
    (∀ (env : FullEnv) (root : RootState),
       (∀ f ∈ root.files, f.name ≠ env.backupId ++ ["tar", "gz"]) →
       exactlyOneArtifact (create_full_backup env root).root env.backupId = true) ∧
    (∀ (root : RootState) (live : LiveState) (bid : FName)
       (comps : Option (List String)) (now : Int) (ok : Bool)
       (f : ArchiveFile) (t : DirTree),
       root.files.find? (fun g => decide (g.name = bid ++ ["tar", "gz"]))
           = some f →
       f.tree = some t → t.name = bid →
       hasArchive (restore_backup bid comps now ok root live).1 bid = true ∧
       hasDir (restore_backup bid comps now ok root live).1 bid = true) := by
  constructor
  · intro env root hfresh
    have hnoarch : hasArchive root env.backupId = false := by
      rw [hasArchive, List.any_eq_false]
      intro f hf
      simp only [decide_eq_true_iff]
      exact hfresh f hf
    have hdirrep : ∀ t : DirTree, t.name = env.backupId →
        exactlyOneArtifact (dirReplaced root t) env.backupId = true := by
      intro t ht
      have h1 : hasDir (dirReplaced root t) env.backupId = true := by
        simp [hasDir, dirReplaced, ht]
      have h2 : hasArchive (dirReplaced root t) env.backupId = false := hnoarch
      simp [exactlyOneArtifact, h1, h2]
    rcases h1 : _backup_database env with e | ⟨dbSt, dbC⟩
    · simp only [create_full_backup, h1, failedFull]
      exact hdirrep _ rfl
    rcases h2 : _backup_models env with e | ⟨mSt, mFs⟩
    · simp only [create_full_backup, h1, h2, failedFull]
      exact hdirrep _ rfl
    rcases h3 : _backup_configuration env with e | ⟨cSt, cFs⟩
    · simp only [create_full_backup, h1, h2, h3, failedFull]
      exact hdirrep _ rfl
    have hsucc : ∀ (info : BInfo) (lFs : List (String × Nat)),
        exactlyOneArtifact
          (if env.compressEnabled then
            { root with
              files := { name := env.backupId ++ ["tar", "gz"],
                         ctime := env.now, size := env.compressedSize,
                         tree := some (stagingTree env (some info) dbC mFs cFs lFs) }
                :: root.files,
              dirs := root.dirs.filter fun d => decide (d.name ≠ env.backupId) }
          else dirReplaced root (stagingTree env (some info) dbC mFs cFs lFs))
          env.backupId = true := by
      intro info lFs
      cases hcp : env.compressEnabled with
      | true =>
        simp only [if_true]
        have ha : hasArchive
            { root with
              files := { name := env.backupId ++ ["tar", "gz"],
                         ctime := env.now, size := env.compressedSize,
                         tree := some (stagingTree env (some info) dbC mFs cFs lFs) }
                :: root.files,
              dirs := root.dirs.filter fun d => decide (d.name ≠ env.backupId) }
            env.backupId = true := by
          simp [hasArchive]
        have hd : hasDir
            { root with
              files := { name := env.backupId ++ ["tar", "gz"],
                         ctime := env.now, size := env.compressedSize,
                         tree := some (stagingTree env (some info) dbC mFs cFs lFs) }
                :: root.files,
              dirs := root.dirs.filter fun d => decide (d.name ≠ env.backupId) }
            env.backupId = false := by
          simp only [hasDir]
          exact hasDir_filter_ne root.dirs env.backupId
        unfold exactlyOneArtifact
        rw [ha, hd]
        rfl
      | false =>
        simp only [Bool.false_eq_true, if_false]
        exact hdirrep _ rfl
    cases hil : env.includeLogs with
    | false =>
      simp only [create_full_backup, h1, h2, h3, hil, Bool.false_eq_true,
        if_false]
      exact hsucc _ _
    | true =>
      rcases h4 : _backup_logs env with e | ⟨lSt, lFs⟩
      · simp only [create_full_backup, h1, h2, h3, hil, h4, if_true,
          failedFull]
        exact hdirrep _ rfl
      · simp only [create_full_backup, h1, h2, h3, hil, h4, if_true]
        exact hsucc _ _
  · intro root live bid comps now ok f t hfind htree hname
    have hloc : locateBackup root bid =
        some (dirReplaced root t,
          (dirReplaced root t).dirs.find? (fun d => decide (d.name = bid))) := by
      simp only [locateBackup, hfind, htree]
    unfold restore_backup
    rw [hloc]
    constructor
    · show hasArchive (dirReplaced root t) bid = true
      have hmem := List.mem_of_find?_eq_some hfind
      have hpred := List.find?_some hfind
      rw [hasArchive, List.any_eq_true]
      exact ⟨f, hmem, hpred⟩
    · show hasDir (dirReplaced root t) bid = true
      simp [hasDir, dirReplaced, hname]

/-- Witness for the amended C7: a healthy creation satisfies the invariant,
and the concrete restore of `full_backup_b` leaves both shapes on disk. -/
theorem claim_C7_amended_witness :
    exactlyOneArtifact (create_full_backup envOk rootEmpty).root
      envOk.backupId = true ∧
    (hasArchive (restore_backup ["full_backup_b"] none 50 true rootC7
        liveW).1 ["full_backup_b"] = true ∧
     hasDir (restore_backup ["full_backup_b"] none 50 true rootC7
        liveW).1 ["full_backup_b"] = true) :=
  ⟨claim_C7_amended.1 envOk rootEmpty (by decide),
   claim_C7_amended.2 rootC7 liveW ["full_backup_b"] none 50 true fileC7
     treeC7 (by decide) rfl rfl⟩

/-! ## Claim C8: the `.tar` stem and the List-then-Restore round trip -/

/-- Any name of the shape `<p>.tar.gz` matches the `*.tar.gz` glob. -/
theorem isTarGz_append (p : FName) (hp : p ≠ []) :
    isTarGz (p ++ ["tar", "gz"]) = true := by
  rcases hq : p.reverse with _ | ⟨a, l⟩
  · exact absurd (List.reverse_eq_nil_iff.mp hq) hp
  · simp [isTarGz, List.reverse_append, hq]

/-- Stem computation: `Path.stem` of `<p>.tar.gz` is `<p>.tar`. -/
theorem dropLast_targz (p : FName) :
    (p ++ ["tar", "gz"]).dropLast = p ++ ["tar"] := by
  rw [show p ++ ["tar", "gz"] = (p ++ ["tar"]) ++ ["gz"] by simp]
  exact List.dropLast_concat

/-- Claim C8: for a compressed archive `<p>.tar.gz` under the backup root,
`list_backups` reports `backup_id = <p>.tar` (the `Path.stem`, which keeps
the `.tar`); feeding that id back to `restore_backup` makes it look for
`<p>.tar.tar.gz` and the directory `<p>.tar`, neither of which exists, so
the call returns a fatal error with nothing restored — the List-then-Restore
round trip never succeeds for a compressed backup. -/
theorem claim_C8_stem_roundtrip (p : FName) (root : RootState)
    (live : LiveState) (now : Int) (ok : Bool) (f : ArchiveFile)
    (hf : f ∈ root.files) (hname : f.name = p ++ ["tar", "gz"]) (hp : p ≠ [])
    (hnoa : ∀ g ∈ root.files, g.name ≠ p ++ ["tar", "tar", "gz"])
    (hnod : ∀ d ∈ root.dirs, d.name ≠ p ++ ["tar"]) :
    (p ++ ["tar"]) ∈ (list_backups root).map (·.backupId) ∧
    (restore_backup (p ++ ["tar"]) none now ok root live).2.2.fatal = true ∧
    (restore_backup (p ++ ["tar"]) none now ok root
        live).2.2.componentsRestored = [] := by
  have hloc : locateBackup root (p ++ ["tar"]) = none := by
    unfold locateBackup
    have h1 : root.files.find?
        (fun g => decide (g.name = (p ++ ["tar"]) ++ ["tar", "gz"])) = none := by
      rw [List.find?_eq_none]
      intro g hg
      simp only [decide_eq_true_iff, List.append_assoc, List.cons_append,
        List.nil_append]
      have := hnoa g hg
      simpa [List.append_assoc] using this
    have h2 : root.dirs.find?
        (fun d => decide (d.name = p ++ ["tar"])) = none := by
      rw [List.find?_eq_none]
      intro d hd
      simp only [decide_eq_true_iff]
      exact hnod d hd
    rw [h1, h2]
  refine ⟨?_, ?_, ?_⟩
  · have hmem : entryOfArchive f ∈ rawEntries root := by
      apply List.mem_append_left
      exact List.mem_map_of_mem _
        (List.mem_filter.mpr ⟨hf, by rw [hname]; exact isTarGz_append p hp⟩)
    have hsorted : entryOfArchive f ∈ list_backups root := by
      unfold list_backups
      exact (sortDesc_perm (rawEntries root)).mem_iff.mpr hmem
    refine List.mem_map.mpr ⟨entryOfArchive f, hsorted, ?_⟩
    simp [entryOfArchive, hname, dropLast_targz]
  · unfold restore_backup
    rw [hloc]
  · unfold restore_backup
    rw [hloc]

/-- Witness for C8 at the concrete root holding `full_backup_b.tar.gz`. -/
theorem claim_C8_stem_roundtrip_witness :
    (["full_backup_b", "tar"]) ∈ (list_backups rootC7).map (·.backupId) ∧
    (restore_backup ["full_backup_b", "tar"] none 50 true rootC7
        liveW).2.2.fatal = true ∧
    (restore_backup ["full_backup_b", "tar"] none 50 true rootC7
        liveW).2.2.componentsRestored = [] :=
  claim_C8_stem_roundtrip ["full_backup_b"] rootC7 liveW 50 true fileC7
    (by decide) rfl (by decide) (by decide) (by decide)

/-! ## Claim C4: incremental selection is strict in the mtime -/

/-- In a directory listing (distinct filenames), a file's name survives a
filter exactly when the file itself satisfies the predicate. -/
theorem mem_map_fst_filter {l : List (String × Int × Nat)}
    (hnd : (l.map (·.1)).Nodup) (p : String × Int × Nat → Bool)
    (f : String × Int × Nat) (hf : f ∈ l) :
    (f.1 ∈ (l.filter p).map (·.1)) ↔ p f = true := by
  constructor
  · intro h
    rcases List.mem_map.mp h with ⟨g, hg, hgf⟩
    have hgl := (List.mem_filter.mp hg).1
    have hp := (List.mem_filter.mp hg).2
    have : g = f := List.inj_on_of_nodup_map hnd hgl hf hgf
    rw [← this]
    exact hp
  · intro hp
    exact List.mem_map.mpr ⟨f, List.mem_filter.mpr ⟨hf, hp⟩, rfl⟩

/-- Claim C4: `create_incremental_backup(S)` captures exactly the model
files (`*.joblib` in the working directory) and log files (`logs/*.log*`)
whose mtime is strictly greater than `S` — a file with mtime `= S` or `< S`
is excluded — reports no logs component when `logs/` is absent, and stages
no Database and no Configuration content at all. -/
theorem claim_C4_incremental_selection (since : Int) (env : IncEnv) :
    (((env.cwdJoblib.map (·.1)).Nodup →
      ∀ f ∈ env.cwdJoblib,
        (f.1 ∈ (create_incremental_backup since env).changedModels ↔
          since < f.2.1)) ∧
     (env.logsDirExists = true →
      (env.logFiles.map (·.1)).Nodup →
      ∀ f ∈ env.logFiles,
        (f.1 ∈ ((create_incremental_backup since env).recentLogs.getD []) ↔
          since < f.2.1)) ∧
     (env.logsDirExists = false →
      (create_incremental_backup since env).recentLogs = none) ∧
     (create_incremental_backup since env).tree.dbFile = none ∧
     (create_incremental_backup since env).tree.configFiles = []) := by
  refine ⟨?_, ?_, ?_, ?_, ?_⟩
  · intro hnd f hf
    have h := mem_map_fst_filter hnd (fun g => decide (since < g.2.1)) f hf
    simp only [create_incremental_backup]
    rw [h]
    exact decide_eq_true_iff
  · intro hlogs hnd f hf
    have h := mem_map_fst_filter hnd (fun g => decide (since < g.2.1)) f hf
    have h2 : (create_incremental_backup since env).recentLogs.getD [] =
        (env.logFiles.filter fun g => decide (since < g.2.1)).map (·.1) := by
      simp [create_incremental_backup, hlogs]
    rw [h2, h]
    exact decide_eq_true_iff
  · intro hlogs
    simp [create_incremental_backup, hlogs]
  · rfl
  · rfl

/-- The spec's own instance for C4: three model files with mtimes
`S - 1`, `S`, `S + 1` around `S = 100`. -/
def envC4 : IncEnv :=
  { backupId := ["incremental_backup_20250104_000000"], now := 200,
    cwdJoblib := [("a.joblib", 99, 1), ("b.joblib", 100, 2), ("c.joblib", 101, 3)],
    logsDirExists := false, logFiles := [] }

/-- Witness for C4: exactly the `S + 1` file is selected. -/
theorem claim_C4_incremental_selection_witness :
    (¬ (("a.joblib", (99 : Int), (1 : Nat)).1 ∈
        (create_incremental_backup 100 envC4).changedModels) ∧
     ¬ (("b.joblib", (100 : Int), (2 : Nat)).1 ∈
        (create_incremental_backup 100 envC4).changedModels) ∧
     ("c.joblib", (101 : Int), (3 : Nat)).1 ∈
        (create_incremental_backup 100 envC4).changedModels) ∧
    (create_incremental_backup 100 envC4).recentLogs = none ∧
    (create_incremental_backup 100 envC4).tree.dbFile = none := by
  have h := claim_C4_incremental_selection 100 envC4
  refine ⟨⟨?_, ?_, ?_⟩, h.2.2.1 rfl, h.2.2.2.1⟩
  · intro hmem
    have := (h.1 (by decide) ("a.joblib", 99, 1) (by decide)).mp hmem
    exact absurd this (by decide)
  · intro hmem
    have := (h.1 (by decide) ("b.joblib", 100, 2) (by decide)).mp hmem
    exact absurd this (by decide)
  · exact (h.1 (by decide) ("c.joblib", 101, 3) (by decide)).mpr (by decide)

/-! ## Claim C6: `list_backups` is sorted newest-first -/

/-- Claim C6: `list_backups` returns the backups sorted by `created_at`
descending — an entry strictly newer than every other entry is the first of
the returned list. -/
theorem claim_C6_list_ordering (root : RootState) (b : BEntry)
    (hb : b ∈ list_backups root)
    (hmax : ∀ c ∈ list_backups root, c ≠ b → c.createdAt < b.createdAt) :
    (list_backups root).head? = some b := by
  have hsorted : (list_backups root).Pairwise
      (fun a c => c.createdAt ≤ a.createdAt) := pairwise_sortDesc _
  rcases hl : list_backups root with _ | ⟨h, t⟩
  · rw [hl] at hb
    cases hb
  · rw [hl] at hb hsorted hmax
    have hhead : h = b := by
      by_contra hne
      rcases List.mem_cons.mp hb with hbh | hbt
      · exact hne hbh.symm
      · have hle := (List.pairwise_cons.mp hsorted).1 b hbt
        have hlt := hmax h (List.mem_cons_self h t) hne
        omega
    rw [hhead]
    rfl

/-- A manifest-bearing backup directory created at time `ts`. -/
def dirAt (nm : String) (ts : Int) (sz : Nat) : DirTree :=
  { name := [nm],
    manifest := some
      { backupId := [nm], backupType := "full", createdAt := ts,
        sinceTimestamp := none, components := [], totalSizeBytes := 0,
        compressionEnabled := false, verificationPassed := false,
        errorMsg := none },
    dbFile := none, modelFiles := [], configFiles := [], logFiles := [],
    rglobSize := sz }

/-- Three manifest-bearing directories with creation times 10 < 20 < 30. -/
def rootC6 : RootState :=
  { files := [],
    dirs := [dirAt "full_backup_t1" 10 1, dirAt "full_backup_t3" 30 3,
             dirAt "full_backup_t2" 20 2],
    remote := [] }

/-- The entry for the newest (T3) backup of `rootC6`. -/
def entryC6 : BEntry :=
  { backupId := ["full_backup_t3"], kind := .uncompressed,
    path := ["full_backup_t3"], sizeBytes := 0, createdAt := 30 }

/-- Witness for C6: with timestamps 10 < 20 < 30 the head of the list is the
backup created at 30. -/
theorem claim_C6_list_ordering_witness :
    (list_backups rootC6).head? = some entryC6 :=
  claim_C6_list_ordering rootC6 entryC6 (by decide) (by decide)

/-! ## Claim C5: retention cleanup -/

/-- The artifact a `list_backups` entry points at, together with the size
`cleanup_old_backups` would free for it: the archive's file size (line 685),
or the directory's recursive on-disk size (line 693). -/
def entryTarget (st : RootState) (e : BEntry) : Option Nat :=
  match e.kind with
  | .compressed =>
    (st.files.find? (fun f => decide (f.name = e.path))).map (·.size)
  | .uncompressed =>
    (st.dirs.find? (fun d => decide (d.name = e.path))).map (·.rglobSize)

/-- Removal of all artifacts hit by the given (old) entries. -/
def removeHits (st : RootState) (es : List BEntry) : RootState :=
  { files := st.files.filter fun f =>
      !(es.any fun e => decide (e.kind = .compressed ∧ e.path = f.name)),
    dirs := st.dirs.filter fun d =>
      !(es.any fun e => decide (e.kind = .uncompressed ∧ e.path = d.name)),
    remote := st.remote }

/-- Dropping all elements keyed `p` does not change a lookup for a
different key `q`. -/
theorem find?_filter_ne {α : Type} (key : α → FName) (q p : FName)
    (h : q ≠ p) :
    ∀ l : List α,
      ((l.filter fun a => decide (key a ≠ p)).find?
        fun a => decide (key a = q)) =
      (l.find? fun a => decide (key a = q))
  | [] => rfl
  | a :: t => by
    by_cases hp : key a = p
    · have hq : ¬ key a = q := fun hh => h (hh.symm.trans hp)
      rw [List.filter_cons_of_neg (by simp [hp]),
        List.find?_cons_of_neg t (by simp [hq]),
        find?_filter_ne key q p h t]
    · by_cases hq : key a = q
      · rw [List.filter_cons_of_pos (by simp [hp]),
          List.find?_cons_of_pos (t.filter fun a => decide (key a ≠ p))
            (by simp [hq]),
          List.find?_cons_of_pos t (by simp [hq])]
      · rw [List.filter_cons_of_pos (by simp [hp]),
          List.find?_cons_of_neg (t.filter fun a => decide (key a ≠ p))
            (by simp [hq]),
          List.find?_cons_of_neg t (by simp [hq]),
          find?_filter_ne key q p h t]

/-- Unlinking one archive does not change the target of an entry with a
different path. -/
theorem entryTarget_removeFile (st : RootState) (pth : FName) (e : BEntry)
    (hne : e.path ≠ pth) :
    entryTarget
      { st with files := st.files.filter (fun g => decide (g.name ≠ pth)) } e
      = entryTarget st e := by
  cases hk : e.kind with
  | compressed =>
    simp only [entryTarget, hk]
    rw [find?_filter_ne (fun f => f.name) e.path pth hne st.files]
  | uncompressed =>
    simp only [entryTarget, hk]

/-- Removing one directory does not change the target of an entry with a
different path. -/
theorem entryTarget_removeDir (st : RootState) (pth : FName) (e : BEntry)
    (hne : e.path ≠ pth) :
    entryTarget
      { st with dirs := st.dirs.filter (fun g => decide (g.name ≠ pth)) } e
      = entryTarget st e := by
  cases hk : e.kind with
  | compressed =>
    simp only [entryTarget, hk]
  | uncompressed =>
    simp only [entryTarget, hk]
    rw [find?_filter_ne (fun d => d.name) e.path pth hne st.dirs]

/-- Characterisation of the removal loop of `cleanup_old_backups` over any
entry list whose paths are distinct and whose targets are present: it
removes exactly the artifacts of the entries strictly older than the
cutoff, appends exactly their ids, and adds up exactly their on-disk
sizes. -/
theorem cleanupFold_spec (cutoff : Int) :
    ∀ (es : List BEntry) (st : RootState) (rem : List FName) (acc : Nat),
      (es.map (·.path)).Nodup →
      (∀ e ∈ es, (entryTarget st e).isSome) →
      es.foldl (cleanupStep cutoff) (st, rem, acc) =
        (removeHits st (es.filter fun e => decide (e.createdAt < cutoff)),
         rem ++ ((es.filter fun e => decide (e.createdAt < cutoff)).map
           (·.backupId)),
         acc + (((es.filter fun e => decide (e.createdAt < cutoff)).map
           fun e => (entryTarget st e).getD 0).sum))
  | [], st, rem, acc, _, _ => by
    simp [removeHits]
  | e :: rest, st, rem, acc, hnd, hpres => by
    have hnd' : (e.path :: rest.map (·.path)).Nodup := by simpa using hnd
    have hndr : (rest.map (·.path)).Nodup := (List.nodup_cons.mp hnd').2
    have hept : e.path ∉ rest.map (·.path) := (List.nodup_cons.mp hnd').1
    have hpne : ∀ e' ∈ rest, e'.path ≠ e.path := by
      intro e' he' hh
      exact hept (by rw [← hh]; exact List.mem_map_of_mem _ he')
    by_cases hold : e.createdAt < cutoff
    · cases hk : e.kind with
      | compressed =>
        obtain ⟨f, hf⟩ : ∃ f,
            st.files.find? (fun g => decide (g.name = e.path)) = some f := by
          have hps := hpres e (List.mem_cons_self _ _)
          unfold entryTarget at hps
          rw [hk] at hps
          exact Option.isSome_iff_exists.mp (by simpa using hps)
        have hstep : cleanupStep cutoff (st, rem, acc) e =
            ({ st with files := st.files.filter (fun g => decide (g.name ≠ e.path)) },
             rem ++ [e.backupId], acc + f.size) := by
          unfold cleanupStep
          rw [if_pos hold]
          simp only [hk, hf]
        have hpres1 : ∀ e' ∈ rest,
            (entryTarget { st with files := st.files.filter (fun g => decide (g.name ≠ e.path)) } e').isSome := by
          intro e' he'
          rw [entryTarget_removeFile st e.path e' (hpne e' he')]
          exact hpres e' (List.mem_cons_of_mem _ he')
        rw [List.foldl_cons, hstep,
          cleanupFold_spec cutoff rest _ _ _ hndr hpres1,
          List.filter_cons_of_pos (by simp [hold])]
        simp only [Prod.mk.injEq]
        refine ⟨?_, ?_, ?_⟩
        · simp only [removeHits, RootState.mk.injEq]
          refine ⟨?_, ?_, trivial⟩
          · rw [List.filter_filter]
            refine List.filter_congr ?_
            intro g _
            by_cases hgg : g.name = e.path
            · simp [List.any_cons, hk, hgg]
            · simp [List.any_cons, hk, hgg, Ne.symm hgg]
          · refine List.filter_congr ?_
            intro d _
            simp [List.any_cons, hk]
        · simp
        · have hfe : (entryTarget st e).getD 0 = f.size := by
            unfold entryTarget
            rw [hk, hf]
            rfl
          have hmap : (rest.filter fun e' => decide (e'.createdAt < cutoff)).map
              (fun e' => (entryTarget { st with files := st.files.filter (fun g => decide (g.name ≠ e.path)) } e').getD 0) =
              (rest.filter fun e' => decide (e'.createdAt < cutoff)).map
              (fun e' => (entryTarget st e').getD 0) := by
            refine List.map_congr_left ?_
            intro e' he'
            rw [entryTarget_removeFile st e.path e'
              (hpne e' (List.mem_of_mem_filter he'))]
          rw [hmap]
          simp only [List.map_cons, List.sum_cons]
          rw [hfe]
          omega
      | uncompressed =>
        obtain ⟨d, hd⟩ : ∃ d,
            st.dirs.find? (fun g => decide (g.name = e.path)) = some d := by
          have hps := hpres e (List.mem_cons_self _ _)
          unfold entryTarget at hps
          rw [hk] at hps
          exact Option.isSome_iff_exists.mp (by simpa using hps)
        have hstep : cleanupStep cutoff (st, rem, acc) e =
            ({ st with dirs := st.dirs.filter (fun g => decide (g.name ≠ e.path)) },
             rem ++ [e.backupId], acc + d.rglobSize) := by
          unfold cleanupStep
          rw [if_pos hold]
          simp only [hk, hd]
        have hpres1 : ∀ e' ∈ rest,
            (entryTarget { st with dirs := st.dirs.filter (fun g => decide (g.name ≠ e.path)) } e').isSome := by
          intro e' he'
          rw [entryTarget_removeDir st e.path e' (hpne e' he')]
          exact hpres e' (List.mem_cons_of_mem _ he')
        rw [List.foldl_cons, hstep,
          cleanupFold_spec cutoff rest _ _ _ hndr hpres1,
          List.filter_cons_of_pos (by simp [hold])]
        simp only [Prod.mk.injEq]
        refine ⟨?_, ?_, ?_⟩
        · simp only [removeHits, RootState.mk.injEq]
          refine ⟨?_, ?_, trivial⟩
          · refine List.filter_congr ?_
            intro g _
            simp [List.any_cons, hk]
          · rw [List.filter_filter]
            refine List.filter_congr ?_
            intro g _
            by_cases hgg : g.name = e.path
            · simp [List.any_cons, hk, hgg]
            · simp [List.any_cons, hk, hgg, Ne.symm hgg]
        · simp
        · have hfe : (entryTarget st e).getD 0 = d.rglobSize := by
            unfold entryTarget
            rw [hk, hd]
            rfl
          have hmap : (rest.filter fun e' => decide (e'.createdAt < cutoff)).map
              (fun e' => (entryTarget { st with dirs := st.dirs.filter (fun g => decide (g.name ≠ e.path)) } e').getD 0) =
              (rest.filter fun e' => decide (e'.createdAt < cutoff)).map
              (fun e' => (entryTarget st e').getD 0) := by
            refine List.map_congr_left ?_
            intro e' he'
            rw [entryTarget_removeDir st e.path e'
              (hpne e' (List.mem_of_mem_filter he'))]
          rw [hmap]
          simp only [List.map_cons, List.sum_cons]
          rw [hfe]
          omega
    · have hstep : cleanupStep cutoff (st, rem, acc) e = (st, rem, acc) := by
        unfold cleanupStep
        rw [if_neg hold]
      rw [List.foldl_cons, hstep,
        cleanupFold_spec cutoff rest st rem acc hndr
          (fun e' he' => hpres e' (List.mem_cons_of_mem _ he')),
        List.filter_cons_of_neg (by simp [hold])]

/-- All artifact names directly under the backup root are distinct — they
are the entries of one directory. -/
abbrev pathsNodup (root : RootState) : Prop :=
  ((root.files.map (·.name)) ++ root.dirs.map (·.name)).Nodup

/-- The paths of the directory-derived entries are the names of the
manifest-bearing directories. -/
theorem dirs_entry_paths :
    ∀ l : List DirTree,
      (l.filterMap entryOfDir).map (·.path) =
      (l.filter fun d => d.manifest.isSome).map (·.name)
  | [] => rfl
  | d :: t => by
    rcases hm : d.manifest with _ | m
    · simp [List.filterMap_cons, entryOfDir, hm, dirs_entry_paths t]
    · simp [List.filterMap_cons, entryOfDir, hm, dirs_entry_paths t]

/-- Under `pathsNodup`, the entry paths of `list_backups` are distinct. -/
theorem listBackups_path_nodup (root : RootState) (h : pathsNodup root) :
    ((list_backups root).map (·.path)).Nodup := by
  have hperm : List.Perm ((list_backups root).map (·.path))
      ((rawEntries root).map (·.path)) :=
    (sortDesc_perm (rawEntries root)).map _
  rw [hperm.nodup_iff]
  have heq : (rawEntries root).map (·.path) =
      ((root.files.filter fun f => isTarGz f.name).map (·.name)) ++
      ((root.dirs.filter fun d => d.manifest.isSome).map (·.name)) := by
    unfold rawEntries
    rw [List.map_append, List.map_map, dirs_entry_paths]
    rfl
  rw [heq]
  refine List.Nodup.sublist ?_ h
  exact List.Sublist.append
    ((List.filter_sublist _).map _) ((List.filter_sublist _).map _)

/-- Every `list_backups` entry points at an existing artifact. -/
theorem listBackups_presence (root : RootState) :
    ∀ e ∈ list_backups root, (entryTarget root e).isSome := by
  intro e he
  have hraw : e ∈ rawEntries root :=
    (sortDesc_perm (rawEntries root)).mem_iff.mp he
  rcases List.mem_append.mp hraw with hl | hr
  · rcases List.mem_map.mp hl with ⟨f, hf, rfl⟩
    have hf' : f ∈ root.files := (List.mem_filter.mp hf).1
    have hfind : (root.files.find?
        (fun g => decide (g.name = f.name))).isSome := by
      rw [List.find?_isSome]
      exact ⟨f, hf', by simp⟩
    simpa [entryTarget, entryOfArchive] using hfind
  · rcases List.mem_filterMap.mp hr with ⟨d, hd, hde⟩
    rcases hm : d.manifest with _ | m
    · rw [entryOfDir, hm] at hde
      cases hde
    · rw [entryOfDir, hm, Option.map_some'] at hde
      injection hde with hde'
      subst hde'
      have hfind : (root.dirs.find?
          (fun g => decide (g.name = d.name))).isSome := by
        rw [List.find?_isSome]
        exact ⟨d, hd, by simp⟩
      simpa [entryTarget] using hfind

/-- An old compressed hit on a file under the backup root is exactly an old
`*.tar.gz` file of that name. -/
theorem old_file_hit_iff (root : RootState) (h : pathsNodup root)
    (cutoff : Int) (f : ArchiveFile) (hf : f ∈ root.files) :
    ((((list_backups root).filter fun e =>
        decide (e.createdAt < cutoff)).any
      fun e => decide (e.kind = .compressed ∧ e.path = f.name)) = true ↔
    (isTarGz f.name = true ∧ f.ctime < cutoff)) := by
  constructor
  · intro hany
    rcases List.any_eq_true.mp hany with ⟨e, he, hpe⟩
    have hobl := (List.mem_filter.mp he).2
    have helist := (List.mem_filter.mp he).1
    simp only [decide_eq_true_iff] at hpe hobl
    have hraw : e ∈ rawEntries root :=
      (sortDesc_perm (rawEntries root)).mem_iff.mp helist
    rcases List.mem_append.mp hraw with hl | hr
    · rcases List.mem_map.mp hl with ⟨g, hg, rfl⟩
      have hg1 : g ∈ root.files := (List.mem_filter.mp hg).1
      have hg2 : isTarGz g.name = true := (List.mem_filter.mp hg).2
      have hnames : (root.files.map (·.name)).Nodup :=
        List.Nodup.of_append_left h
      have hgf : g = f := List.inj_on_of_nodup_map hnames hg1 hf
        (by simpa [entryOfArchive] using hpe.2)
      subst hgf
      exact ⟨hg2, by simpa [entryOfArchive] using hobl⟩
    · rcases List.mem_filterMap.mp hr with ⟨d, hd, hde⟩
      rcases hm : d.manifest with _ | m
      · rw [entryOfDir, hm] at hde
        cases hde
      · rw [entryOfDir, hm, Option.map_some'] at hde
        injection hde with hde'
        subst hde'
        exact absurd hpe.1 (by simp)
  · rintro ⟨htg, hold⟩
    refine List.any_eq_true.mpr ⟨entryOfArchive f, ?_, by simp [entryOfArchive]⟩
    refine List.mem_filter.mpr ⟨?_, by simp [entryOfArchive, hold]⟩
    exact (sortDesc_perm _).mem_iff.mpr
      (List.mem_append_left _
        (List.mem_map_of_mem _ (List.mem_filter.mpr ⟨hf, htg⟩)))

/-- An old uncompressed hit on a directory under the backup root is exactly
an old manifest-bearing directory of that name. -/
theorem old_dir_hit_iff (root : RootState) (h : pathsNodup root)
    (cutoff : Int) (d : DirTree) (hd : d ∈ root.dirs) :
    ((((list_backups root).filter fun e =>
        decide (e.createdAt < cutoff)).any
      fun e => decide (e.kind = .uncompressed ∧ e.path = d.name)) = true ↔
    (∃ m, d.manifest = some m ∧ m.createdAt < cutoff)) := by
  constructor
  · intro hany
    rcases List.any_eq_true.mp hany with ⟨e, he, hpe⟩
    have hobl := (List.mem_filter.mp he).2
    have helist := (List.mem_filter.mp he).1
    simp only [decide_eq_true_iff] at hpe hobl
    have hraw : e ∈ rawEntries root :=
      (sortDesc_perm (rawEntries root)).mem_iff.mp helist
    rcases List.mem_append.mp hraw with hl | hr
    · rcases List.mem_map.mp hl with ⟨g, hg, rfl⟩
      exact absurd hpe.1 (by simp [entryOfArchive])
    · rcases List.mem_filterMap.mp hr with ⟨d', hd', hde⟩
      rcases hm : d'.manifest with _ | m
      · rw [entryOfDir, hm] at hde
        cases hde
      · rw [entryOfDir, hm, Option.map_some'] at hde
        injection hde with hde'
        subst hde'
        have hnames : (root.dirs.map (·.name)).Nodup :=
          List.Nodup.of_append_right h
        have hdd : d' = d :=
          List.inj_on_of_nodup_map hnames hd' hd (by simpa using hpe.2)
        subst hdd
        exact ⟨m, hm, by simpa using hobl⟩
  · rintro ⟨m, hm, hold⟩
    refine List.any_eq_true.mpr
      ⟨{ backupId := d.name, kind := .uncompressed, path := d.name,
         sizeBytes := m.totalSizeBytes, createdAt := m.createdAt },
       ?_, by simp⟩
    refine List.mem_filter.mpr ⟨?_, by simp [hold]⟩
    refine (sortDesc_perm _).mem_iff.mpr (List.mem_append_right _ ?_)
    exact List.mem_filterMap.mpr ⟨d, hd, by rw [entryOfDir, hm]; rfl⟩

/-- Claim C5: `cleanup_old_backups` removes exactly those local backups
whose creation time is strictly older than `now - N` days — compressed
archives by their file ctime, manifest-bearing directories by their
manifest's `created_at` — reports `space_freed_bytes` equal to the summed
on-disk sizes of exactly the removed artifacts, and never deletes remote
copies. -/
theorem claim_C5_retention (now days : Int) (root : RootState)
    (h : pathsNodup root) :
    ((∀ f ∈ root.files,
        (f ∈ (cleanup_old_backups now days root).1.files ↔
          ¬(isTarGz f.name = true ∧ f.ctime < now - days * 86400))) ∧
     (∀ d ∈ root.dirs,
        (d ∈ (cleanup_old_backups now days root).1.dirs ↔
          ¬(∃ m, d.manifest = some m ∧
              m.createdAt < now - days * 86400))) ∧
     ((cleanup_old_backups now days root).2.removedBackups =
        ((list_backups root).filter fun e =>
          decide (e.createdAt < now - days * 86400)).map (·.backupId)) ∧
     ((cleanup_old_backups now days root).2.spaceFreed =
        (((list_backups root).filter fun e =>
          decide (e.createdAt < now - days * 86400)).map
            fun e => (entryTarget root e).getD 0).sum) ∧
     (cleanup_old_backups now days root).1.remote = root.remote) := by
  have hmain := cleanupFold_spec (now - days * 86400) (list_backups root)
    root [] 0 (listBackups_path_nodup root h) (listBackups_presence root)
  have hres : cleanup_old_backups now days root =
      (removeHits root ((list_backups root).filter fun e =>
          decide (e.createdAt < now - days * 86400)),
       { removedBackups := ((list_backups root).filter fun e =>
            decide (e.createdAt < now - days * 86400)).map (·.backupId),
         spaceFreed := (((list_backups root).filter fun e =>
            decide (e.createdAt < now - days * 86400)).map
              fun e => (entryTarget root e).getD 0).sum,
         retentionDays := days }) := by
    simp only [cleanup_old_backups]
    rw [hmain]
    simp
  rw [hres]
  refine ⟨?_, ?_, rfl, rfl, rfl⟩
  · intro f hf
    have hhit := old_file_hit_iff root h (now - days * 86400) f hf
    simp only [removeHits, List.mem_filter]
    constructor
    · rintro ⟨_, hpred⟩ hcontra
      have hfalse : (((list_backups root).filter fun e =>
          decide (e.createdAt < now - days * 86400)).any
        fun e => decide (e.kind = .compressed ∧ e.path = f.name)) = false := by
        simpa using hpred
      rw [hhit.mpr hcontra] at hfalse
      cases hfalse
    · intro hnot
      refine ⟨hf, ?_⟩
      have hfalse : (((list_backups root).filter fun e =>
          decide (e.createdAt < now - days * 86400)).any
        fun e => decide (e.kind = .compressed ∧ e.path = f.name)) = false := by
        rw [← Bool.not_eq_true]
        exact fun ha => hnot (hhit.mp ha)
      rw [hfalse]
      rfl
  · intro d hd
    have hhit := old_dir_hit_iff root h (now - days * 86400) d hd
    simp only [removeHits, List.mem_filter]
    constructor
    · rintro ⟨_, hpred⟩ hcontra
      have hfalse : (((list_backups root).filter fun e =>
          decide (e.createdAt < now - days * 86400)).any
        fun e => decide (e.kind = .uncompressed ∧ e.path = d.name)) = false := by
        simpa using hpred
      rw [hhit.mpr hcontra] at hfalse
      cases hfalse
    · intro hnot
      refine ⟨hd, ?_⟩
      have hfalse : (((list_backups root).filter fun e =>
          decide (e.createdAt < now - days * 86400)).any
        fun e => decide (e.kind = .uncompressed ∧ e.path = d.name)) = false := by
        rw [← Bool.not_eq_true]
        exact fun ha => hnot (hhit.mp ha)
      rw [hfalse]
      rfl

/-- A compressed backup archive created at time `ts` with on-disk size
`sz`. -/
def fileAt (nm : String) (ts : Int) (sz : Nat) : ArchiveFile :=
  { name := [nm, "tar", "gz"], ctime := ts, size := sz, tree := none }

/-- The spec's retention instance: three compressed backups aged 5, 10 and
40 days at `now` = day 100, plus one remote copy. -/
def rootC5 : RootState :=
  { files := [fileAt "full_backup_a5" (95 * 86400) 100,
              fileAt "full_backup_a10" (90 * 86400) 200,
              fileAt "full_backup_a40" (60 * 86400) 300],
    dirs := [], remote := [["remote_copy"]] }

/-- Witness for C5: `Cleanup(30)` on backups aged `{5, 10, 40}` days removes
exactly the 40-day backup, frees exactly its size, and leaves the remote
copy. -/
theorem claim_C5_retention_witness :
    (cleanup_old_backups (8640000 : Int) 30 rootC5).2.removedBackups =
      [["full_backup_a40", "tar"]] ∧
    (cleanup_old_backups (8640000 : Int) 30 rootC5).2.spaceFreed = 300 ∧
    (cleanup_old_backups (8640000 : Int) 30 rootC5).1.remote =
      rootC5.remote := by
  have h := claim_C5_retention 8640000 30 rootC5 (by decide)
  refine ⟨?_, ?_, h.2.2.2.2⟩
  · rw [h.2.2.1]
    decide
  · rw [h.2.2.2.1]
    decide

end BackupPy
